import Mathlib

/-!
Verification of the Telegram-channel-to-Hugo exporter (src/app.py).

The Python source is shallowly embedded: strings are Lean `String`
(a list of characters, matching Python's code-point semantics for
`len`, slicing and per-character tests, restricted to ASCII for the
character-class predicates), the regular expressions of the source are
translated into explicit character-list scanners with the same matching
semantics, and the stateful loops become explicit state records folded
over lists.
-/

/-- Python's whitespace test (`str.strip`, `\s`), ASCII range. -/
def pyIsSpace (c : Char) : Bool :=
  c = ' ' || c = '\t' || c = '\n' || c = '\r' || c = '\x0b' || c = '\x0c'

/-- `str.strip()` on a character list: drop whitespace at both ends. -/
def pyStripL (l : List Char) : List Char :=
  ((l.dropWhile pyIsSpace).reverse.dropWhile pyIsSpace).reverse

/-- `str.strip()`. -/
def pyStrip (s : String) : String := ⟨pyStripL s.data⟩

/-- `str.rstrip()`: drop trailing whitespace. -/
def rstripPy (s : String) : String := ⟨(s.data.reverse.dropWhile pyIsSpace).reverse⟩

/-- Numeric value of a decimal digit string, as Python `int` on digits. -/
def digitsVal (l : List Char) : Nat :=
  l.foldl (fun a c => a * 10 + (c.toNat - 48)) 0

/-- Does `s` start with the pattern `p`? -/
def startsWithL : List Char → List Char → Bool
  | [], _ => true
  | _ :: _, [] => false
  | p :: ps, c :: cs => p = c && startsWithL ps cs

/-- Python's `pat in s` substring test. -/
def containsL (pat : List Char) : List Char → Bool
  | [] => startsWithL pat []
  | c :: cs => startsWithL pat (c :: cs) || containsL pat cs

/-- Substring containment on strings (Python `pat in s`). -/
def containsS (pat s : String) : Bool := containsL pat.data s.data

/-- Helper for the regex `(?:\()?(\d+)/(\d+)(?:\))?\s*$`: peel one closing
parenthesis off the front of the reversed text, if present. -/
def splitClose (r : List Char) : List Char × List Char :=
  match r with
  | c :: rest => if c = ')' then (rest, [')']) else (r, [])
  | [] => ([], [])

/-- Peel one opening parenthesis (reversed scan), if present. -/
def splitOpen (r : List Char) : List Char × List Char :=
  match r with
  | c :: rest => if c = '(' then (rest, ['(']) else (r, [])
  | [] => ([], [])

/-- Scanner for `re.search(r"(?:\()?(\d+)/(\d+)(?:\))?\s*$", text)` applied
to already-stripped text: the leftmost match must cover a suffix, so scan
from the right: optional `)`, the total digits, `/`, the index digits,
optional `(`.  Returns the text left of the match, the index and the total. -/
def markerSplit (s : List Char) : Option (List Char × Nat × Nat) :=
  let p := splitClose s.reverse
  let tds := p.1.takeWhile Char.isDigit
  if tds = [] then none
  else
    match p.1.dropWhile Char.isDigit with
    | c :: r2 =>
      if c = '/' then
        let ids := r2.takeWhile Char.isDigit
        if ids = [] then none
        else
          let r3 := r2.dropWhile Char.isDigit
          some ((splitOpen r3).1.reverse, digitsVal ids.reverse, digitsVal tds.reverse)
      else none
    | [] => none

/-- The continuation-marker detector of `group_messages` (src/app.py:119-127):
strip the text, then `re.search(r"(?:\()?(\d+)/(\d+)(?:\))?\s*$", text)`,
returning the two captured numbers. -/
def detectMarker (t : String) : Option (Nat × Nat) :=
  match markerSplit (pyStripL t.data) with
  | some (_, i, n) => some (i, n)
  | none => none

/-- The marker-removing `re.sub(r"(?:\()?(\d+)/(\d+)(?:\))?\s*$", "", text.strip())`
of `create_hugo_post` (src/app.py:380-382). -/
def stripMarkerSuffix (t : String) : String :=
  match markerSplit (pyStripL t.data) with
  | some (pre, _, _) => ⟨pre⟩
  | none => ⟨pyStripL t.data⟩

/-- Modelled from the spec's 4.1 wording: the trimmed text decomposes as
anything, then an optional opening parenthesis, one-or-more digits, `/`,
one-or-more digits, an optional closing parenthesis and optional trailing
whitespace, anchored at the end. -/
def endsWithMarkerSpec (s : List Char) : Prop :=
  ∃ pre par1 ds1 ds2 par2 ws : List Char,
    s = pre ++ par1 ++ ds1 ++ ['/'] ++ ds2 ++ par2 ++ ws ∧
    (par1 = [] ∨ par1 = ['(']) ∧
    ds1 ≠ [] ∧ (∀ c ∈ ds1, c.isDigit = true) ∧
    ds2 ≠ [] ∧ (∀ c ∈ ds2, c.isDigit = true) ∧
    (par2 = [] ∨ par2 = [')']) ∧
    (∀ c ∈ ws, pyIsSpace c = true)

/-- A Telegram message as used by the program: `id`, `text` (Python `None`
or `""` are both falsy and modelled as `""`), the media payload and the
album correlation id `grouped_id` (`None` modelled as `none`; Python also
treats the integer `0` as falsy). -/
inductive TMedia where
  | photo
  | document (mimeType : String) (origFilename : Option String) (hasVideoAttr : Bool)
  | otherMedia (realizedName : Option String)
deriving DecidableEq, Repr

structure Msg where
  id : Nat
  text : String
  media : Option TMedia
  grouped_id : Option Nat
deriving DecidableEq, Repr

/-- The mutable state of the `group_messages` loop (src/app.py:107-232). -/
structure GState where
  grouped : List (List Msg)
  current : List Msg
  expecting : Bool
  expectedNext : Nat
  expectedTotal : Nat
deriving DecidableEq, Repr

/-- The `if current_group: grouped.append(current_group)` idiom of
`group_messages`: the emitted list once the open group (if any) is
appended. -/
def flushGrouped (st : GState) : List (List Msg) :=
  if st.current = [] then st.grouped else st.grouped ++ [st.current]

/-- One iteration of the `group_messages` loop. -/
def groupStep (st : GState) (m : Msg) : GState :=
  if m.text = "" then st
  else
    match detectMarker m.text with
    | some (currentNum, totalNum) =>
      if currentNum = 1 then
        if 1 < totalNum then
          { grouped := flushGrouped st, current := [m], expecting := true,
            expectedNext := 2, expectedTotal := totalNum }
        else
          { grouped := flushGrouped st ++ [[m]], current := [], expecting := false,
            expectedNext := st.expectedNext, expectedTotal := st.expectedTotal }
      else if st.expecting = true ∧ currentNum = st.expectedNext ∧ totalNum = st.expectedTotal then
        if currentNum = totalNum then
          { grouped := st.grouped ++ [st.current ++ [m]], current := [], expecting := false,
            expectedNext := 1, expectedTotal := 1 }
        else
          { grouped := st.grouped, current := st.current ++ [m], expecting := true,
            expectedNext := st.expectedNext + 1, expectedTotal := st.expectedTotal }
      else
        { grouped := flushGrouped st ++ [[m]], current := [], expecting := false,
          expectedNext := 1, expectedTotal := 1 }
    | none =>
      { grouped := flushGrouped st ++ [[m]], current := [], expecting := false,
        expectedNext := 1, expectedTotal := 1 }

/-- `group_messages` (src/app.py:107-232): fold the loop over the
chronological message list, then flush the open group. -/
def group_messages (messages : List Msg) : List (List Msg) :=
  flushGrouped (messages.foldl groupStep
    { grouped := [], current := [], expecting := false, expectedNext := 1, expectedTotal := 1 })

/-- The structured record built by `parse_message_structure`
(src/app.py:234-322). -/
structure PStruct where
  party_name : String
  committee : String
  press_release : Bool
  date : String
  title : String
  content_lines : List String
deriving DecidableEq, Repr

def partyIndicators : List String :=
  ["party", "movement", "organization", "front", "union",
   "congress", "league", "association", "council", "committee"]

def committeeIndicators : List String :=
  ["committee", "central", "zonal", "provincial", "district",
   "division", "wing", "cell", "bureau", "secretariat"]

/-- `line.lower()` (ASCII). -/
def lowerS (s : String) : String := ⟨s.data.map Char.toLower⟩

/-- `any(indicator in line.lower() for indicator in indicators)`. -/
def containsAny (indicators : List String) (lowLine : String) : Bool :=
  indicators.any (fun ind => containsS ind lowLine)

/-- Python `str.split()` with no separator: split on whitespace runs,
dropping empty words. -/
def wordsAux (cur : List Char) : List Char → List (List Char)
  | [] => if cur = [] then [] else [cur.reverse]
  | c :: cs =>
    if pyIsSpace c then
      if cur = [] then wordsAux [] cs else cur.reverse :: wordsAux [] cs
    else wordsAux (c :: cur) cs

def wordsPy (s : String) : List (List Char) := wordsAux [] s.data

/-- The title-case heuristic of the parser (src/app.py:276-279):
`len(words) >= 2 and all(word[0].isupper() for word in words if word)`. -/
def titleCaseHeuristic (line : String) : Bool :=
  let ws := wordsPy line
  2 ≤ ws.length && ws.all (fun w =>
    match w with
    | [] => true
    | c :: _ => c.isUpper)

/-- Does `line` start (Python `re.match`) with `\d{2}-\d{2}-\d{4}`? -/
def matchesDMYAt (l : List Char) : Bool :=
  match l with
  | d1 :: d2 :: h1 :: m1 :: m2 :: h2 :: y1 :: y2 :: y3 :: y4 :: _ =>
    d1.isDigit && d2.isDigit && h1 = '-' && m1.isDigit && m2.isDigit &&
    h2 = '-' && y1.isDigit && y2.isDigit && y3.isDigit && y4.isDigit
  | _ => false

/-- `re.search(r"(\d{2}-\d{2}-\d{4})", line)`: first window of that shape. -/
def searchDMY : List Char → Option (List Char)
  | [] => none
  | c :: cs =>
    if matchesDMYAt (c :: cs) then some ((c :: cs).take 10)
    else searchDMY cs

/-- One iteration of the line-classification loop of
`parse_message_structure` (src/app.py:249-314).  The pair carries the
structure being built and the `content_started` flag. -/
def classifyLine (acc : PStruct × Bool) (line : String) : PStruct × Bool :=
  let s := acc.1
  let started := acc.2
  if s.party_name = "" ∧ started = false ∧
      (containsAny partyIndicators (lowerS line) = true ∨ titleCaseHeuristic line = true) then
    ({ s with party_name := line }, started)
  else if s.committee = "" ∧ started = false ∧
      containsAny committeeIndicators (lowerS line) = true then
    ({ s with committee := line }, started)
  else if containsS "press release" (lowerS line) = true then
    ({ s with press_release := true }, started)
  else if startsWithL "date:".data (lowerS line).data = true ∨ matchesDMYAt line.data = true then
    match searchDMY line.data with
    | some d => ({ s with date := ⟨d⟩ }, started)
    | none => (s, started)
  else
    ({ s with content_lines := s.content_lines ++ [line] }, true)

/-- The stripped non-empty lines of the text:
`[line.strip() for line in text.split("\n") if line.strip()]`. -/
def splitLinesAux (cur : List Char) : List Char → List (List Char)
  | [] => [cur.reverse]
  | c :: cs => if c = '\n' then cur.reverse :: splitLinesAux [] cs else splitLinesAux (c :: cur) cs

def strippedLines (text : String) : List String :=
  ((splitLinesAux [] text.data).map (fun l => pyStripL l)).filterMap
    (fun l => if l = [] then none else some ⟨l⟩)

/-- The 100-character title truncation of the parser (src/app.py:317-320). -/
def truncTitle (s : String) : String :=
  if 100 < s.length then (⟨s.data.take 100⟩ : String) ++ "..." else s

/-- `parse_message_structure` (src/app.py:234-322). -/
def parse_message_structure (text : String) : PStruct :=
  let init : PStruct :=
    { party_name := "", committee := "", press_release := false,
      date := "", title := "", content_lines := [] }
  let res := (strippedLines text).foldl classifyLine (init, false)
  let s := res.1
  match s.content_lines with
  | [] => s
  | c :: _ => if s.title = "" then { s with title := truncTitle c } else s

/-- Ordering of messages by `id` (Python `sorted(message_group, key=lambda x: x.id)`). -/
def msgLe (a b : Msg) : Prop := a.id ≤ b.id

instance : DecidableRel msgLe := fun a b => Nat.decLe a.id b.id

instance : IsTotal Msg msgLe := ⟨fun a b => Nat.le_total a.id b.id⟩

instance : IsTrans Msg msgLe := ⟨fun _ _ _ h h2 => Nat.le_trans h h2⟩

/-- A stable sort by ascending id, as Python's `sorted`/`list.sort` with
`key=lambda x: x.id`. -/
def sortById (l : List Msg) : List Msg := List.insertionSort msgLe l

def isWordChar (c : Char) : Bool := c.isAlphanum || c = '_'

/-- Collapse every maximal run of separator characters to a single `-`
(the `re.sub(r"[-\s]+", "-", ...)` / `re.sub(r"-+", "-", ...)` steps). -/
def collapseRunsAux (sep : Char → Bool) (prev : Bool) : List Char → List Char
  | [] => []
  | c :: cs =>
    if sep c then
      if prev then collapseRunsAux sep true cs else '-' :: collapseRunsAux sep true cs
    else c :: collapseRunsAux sep false cs

def collapseRuns (sep : Char → Bool) (l : List Char) : List Char := collapseRunsAux sep false l

/-- `str.strip("-")`. -/
def stripChar (ch : Char) (l : List Char) : List Char :=
  ((l.dropWhile (fun c => c = ch)).reverse.dropWhile (fun c => c = ch)).reverse

/-- The file-slug cleanup of `download_album_media` (src/app.py:512-514):
lowercase, map every non-word non-hyphen character to `-`, collapse `-`
runs, strip `-` at both ends. -/
def cleanFolderName (s : String) : String :=
  let l := (s.data.map Char.toLower).map (fun c => if isWordChar c || c = '-' then c else '-')
  ⟨stripChar '-' (collapseRuns (fun c => c = '-') l)⟩

/-- `pathlib.Path(s).name`: the part after the last `/`. -/
def pathName (s : String) : List Char := (s.data.reverse.takeWhile (fun c => c ≠ '/')).reverse

/-- `pathlib`'s `(stem, suffix)` of a filename: split at the last dot,
unless that dot is the first or last character of the name. -/
def pathStemSuffix (s : String) : List Char × List Char :=
  let nm := pathName s
  let r := nm.reverse
  let afterDot := r.takeWhile (fun c => c ≠ '.')
  match r.dropWhile (fun c => c ≠ '.') with
  | '.' :: pre => if afterDot = [] ∨ pre = [] then (nm, []) else (pre.reverse, '.' :: afterDot.reverse)
  | _ => (nm, [])

def pathStem (s : String) : String := ⟨(pathStemSuffix s).1⟩

def pathSfx (s : String) : String := ⟨(pathStemSuffix s).2⟩

/-- The fixed MIME-to-extension table (src/app.py:584-591). -/
def extFromMime (mime : String) : String :=
  if mime = "image/jpeg" then ".jpg"
  else if mime = "image/png" then ".png"
  else if mime = "image/gif" then ".gif"
  else if mime = "image/webp" then ".webp"
  else if mime = "image/bmp" then ".bmp"
  else ".jpg"

/-- Extension for an image document: original filename's suffix when
present (defaulting to `.jpg`), else the MIME table. -/
def docExt (origFilename : Option String) (mime : String) : String :=
  match origFilename with
  | some fn => let sfx := pathSfx fn; if sfx = "" then ".jpg" else sfx
  | none => extFromMime mime

/-- The image-extension set for best-effort downloads (src/app.py:756-764). -/
def isImgExt (name : String) : Bool :=
  let sfx := lowerS (pathSfx name)
  sfx = ".jpg" || sfx = ".jpeg" || sfx = ".png" || sfx = ".gif" || sfx = ".webp" || sfx = ".bmp"

/-- The state threaded through `download_album_media` (src/app.py:505-781):
the featured filename, the running image count, and the files actually
written to the post folder as `(message id, filename)` pairs. -/
structure MediaState where
  featured : Option String
  imageCount : Nat
  files : List (Nat × String)
deriving DecidableEq, Repr

def photoFilename (n : Nat) (slug : String) : String :=
  if n = 1 then "featured-" ++ slug ++ ".jpg"
  else "image-" ++ toString n ++ "-" ++ slug ++ ".jpg"

def imageDocFilename (n : Nat) (slug ext : String) : String :=
  if n = 1 then "featured-" ++ slug ++ ext
  else "image-" ++ toString n ++ "-" ++ slug ++ ext

/-- Processing of a `MessageMediaPhoto` (src/app.py:546-562 and 649-665):
the counter is bumped and the filename chosen before the download; the
featured slot is only filled after a successful download.  A failing
download raises inside the `try`, so on failure only the counter bump
survives. -/
def stepPhoto (ok : Nat → Bool) (slug : String) (st : MediaState) (m : Msg) : MediaState :=
  let n := st.imageCount + 1
  let f := photoFilename n slug
  if ok m.id then
    { featured := if st.featured = none then some f else st.featured,
      imageCount := n, files := st.files ++ [(m.id, f)] }
  else
    { st with imageCount := n }

/-- Processing of an image document (src/app.py:577-607 and 680-708): the
counter is bumped and the featured slot filled before the download, so both
survive a download failure. -/
def stepImageDoc (ok : Nat → Bool) (slug : String) (st : MediaState) (m : Msg)
    (mime : String) (orig : Option String) : MediaState :=
  let n := st.imageCount + 1
  let f := imageDocFilename n slug (docExt orig mime)
  let feat := if st.featured = none then some f else st.featured
  if ok m.id then
    { featured := feat, imageCount := n, files := st.files ++ [(m.id, f)] }
  else
    { featured := feat, imageCount := n, files := st.files }

/-- Processing of a video document (src/app.py:609-621 and 710-722). -/
def stepVideoDoc (ok : Nat → Bool) (slug : String) (st : MediaState) (m : Msg)
    (orig : Option String) : MediaState :=
  let base := match orig with
    | some fn => pathStem fn
    | none => "video-" ++ toString m.id
  let ext := match orig with
    | some fn => let sfx := pathSfx fn; if sfx = "" then ".mp4" else sfx
    | none => ".mp4"
  let f := base ++ "-" ++ slug ++ ext
  if ok m.id then { st with files := st.files ++ [(m.id, f)] } else st

/-- Processing of any other document (src/app.py:623-635 and 724-736). -/
def stepOtherDoc (ok : Nat → Bool) (slug : String) (st : MediaState) (m : Msg)
    (orig : Option String) : MediaState :=
  let base := match orig with
    | some fn => pathStem fn
    | none => "document-" ++ toString m.id
  let ext := match orig with
    | some fn => let sfx := pathSfx fn; if sfx = "" then ".bin" else sfx
    | none => ".bin"
  let f := base ++ "-" ++ slug ++ ext
  if ok m.id then { st with files := st.files ++ [(m.id, f)] } else st

/-- Dispatch on a document's MIME type (`"image" in mime_type`, then
`"video" in mime_type`, else other). -/
def stepDocMedia (ok : Nat → Bool) (slug : String) (st : MediaState) (m : Msg)
    (mime : String) (orig : Option String) : MediaState :=
  if containsS "image" mime then stepImageDoc ok slug st m mime orig
  else if containsS "video" mime then stepVideoDoc ok slug st m orig
  else stepOtherDoc ok slug st m orig

/-- One iteration of the album loop (src/app.py:543-641): photos and
documents are handled, any other media kind is ignored; the surrounding
`try`/`except` catches a failing download and continues. -/
def stepAlbumMsg (ok : Nat → Bool) (slug : String) (st : MediaState) (m : Msg) : MediaState :=
  match m.media with
  | some TMedia.photo => stepPhoto ok slug st m
  | some (TMedia.document mime orig _) => stepDocMedia ok slug st m mime orig
  | _ => st

/-- One iteration of the singles loop (src/app.py:644-773): photos and
documents as in the album loop, plus the best-effort branch for other
media kinds, whose realized filename is counted as an image when it has an
image extension. -/
def stepSingleMsg (ok : Nat → Bool) (slug : String) (st : MediaState) (m : Msg) : MediaState :=
  match m.media with
  | some TMedia.photo => stepPhoto ok slug st m
  | some (TMedia.document mime orig _) => stepDocMedia ok slug st m mime orig
  | some (TMedia.otherMedia realized) =>
    if ok m.id then
      match realized with
      | some path =>
        let actual : String := ⟨pathName path⟩
        if isImgExt actual then
          { featured := if st.featured = none then some actual else st.featured,
            imageCount := st.imageCount + 1, files := st.files ++ [(m.id, actual)] }
        else
          { st with files := st.files ++ [(m.id, actual)] }
      | none => st
    else st
  | none => st

/-- Insert a message into the album association list keyed by
`grouped_id`, preserving first-appearance key order (Python dict). -/
def addAlbum : List (Nat × List Msg) → Nat → Msg → List (Nat × List Msg)
  | [], g, m => [(g, [m])]
  | (k, ms) :: rest, g, m =>
    if k = g then (k, ms ++ [m]) :: rest else (k, ms) :: addAlbum rest g m

/-- One iteration of the partition loop of `download_album_media`
(src/app.py:523-532): messages without media are skipped; a truthy
`grouped_id` (non-zero in Python) goes to its album cluster, the rest to
the singles list. -/
def partitionStep (acc : List (Nat × List Msg) × List Msg) (m : Msg) :
    List (Nat × List Msg) × List Msg :=
  if m.media.isNone then acc
  else
    match m.grouped_id with
    | some g => if g = 0 then (acc.1, acc.2 ++ [m]) else (addAlbum acc.1 g m, acc.2)
    | none => (acc.1, acc.2 ++ [m])

def partitionMedia (l : List Msg) : List (Nat × List Msg) × List Msg :=
  l.foldl partitionStep ([], [])

/-- `download_album_media` (src/app.py:505-781): sort the group by id,
partition into album clusters and singles, process albums first (each
re-sorted by id), then singles.  `ok` tells, per message id, whether the
platform download succeeds; a failure raises and is caught by the
per-message handler. -/
def download_album_media (ok : Nat → Bool) (group : List Msg) (folderName : String) : MediaState :=
  let slug := cleanFolderName folderName
  let parts := partitionMedia (sortById group)
  let st := parts.1.foldl
    (fun st alb => (sortById alb.2).foldl (stepAlbumMsg ok slug) st)
    { featured := none, imageCount := 0, files := [] }
  parts.2.foldl (stepSingleMsg ok slug) st

/-- Generic single-character split (Python `s.split(sep)`). -/
def splitChAux (sep : Char) (cur : List Char) : List Char → List (List Char)
  | [] => [cur.reverse]
  | c :: cs => if c = sep then cur.reverse :: splitChAux sep [] cs else splitChAux sep (c :: cur) cs

def daysInMonth (m y : Nat) : Nat :=
  if m = 2 then (if (y % 4 = 0 ∧ ¬ y % 100 = 0) ∨ y % 400 = 0 then 29 else 28)
  else if m = 4 ∨ m = 6 ∨ m = 9 ∨ m = 11 then 30 else 31

/-- `datetime.strptime(s, "%d-%m-%Y")`: day of 1-2 digits in 1..31, month
of 1-2 digits in 1..12, year of exactly 4 digits, full match, and the date
must exist in the proleptic Gregorian calendar with year at least 1. -/
def parseDMY (s : String) : Option (Nat × Nat × Nat) :=
  match splitChAux '-' [] s.data with
  | [ds, ms, ys] =>
    if (ds.length = 1 ∨ ds.length = 2) ∧ ds.all Char.isDigit ∧
       (ms.length = 1 ∨ ms.length = 2) ∧ ms.all Char.isDigit ∧
       ys.length = 4 ∧ ys.all Char.isDigit then
      let d := digitsVal ds
      let mo := digitsVal ms
      let y := digitsVal ys
      if 1 ≤ d ∧ d ≤ 31 ∧ 1 ≤ mo ∧ mo ≤ 12 ∧ 1 ≤ y ∧ d ≤ daysInMonth mo y then
        some (d, mo, y)
      else none
    else none
  | _ => none

def pad2 (n : Nat) : String := if n < 10 then "0" ++ toString n else toString n

/-- `strftime("%Y-%m-%d")` on a parsed date. -/
def fmtYMD (d mo y : Nat) : String := toString y ++ "-" ++ pad2 mo ++ "-" ++ pad2 d

/-- `convert_date_format` (src/app.py:353-359): DD-MM-YYYY to YYYY-MM-DD,
falling back to the current date (`today`) when parsing fails. -/
def convert_date_format (today : String) (dateStr : String) : String :=
  match parseDMY dateStr with
  | some (d, mo, y) => fmtYMD d mo y
  | none => today

/-- `generate_folder_name` (src/app.py:324-351).  `stamp` stands for the
`datetime.now().strftime('%Y%m%d_%H%M%S')` fallback stamp. -/
def generate_folder_name (stamp : String) (text : String) (date : String) : String :=
  if text = "" then "post_" ++ stamp
  else
    let firstLine := match splitChAux '\n' [] text.data with
      | f :: _ => f
      | [] => []
    let fl := pyStripL firstLine
    let fl := if 50 < fl.length then fl.take 50 else fl
    let f1 := fl.filter (fun c => isWordChar c || pyIsSpace c || c = '-')
    let f2 := collapseRuns (fun c => c = '-' || pyIsSpace c) f1
    let f3 := (stripChar '-' f2).map Char.toLower
    if f3 = [] then "post_" ++ stamp
    else if date = "" then ⟨f3⟩
    else match parseDMY date with
      | some (d, mo, y) => fmtYMD d mo y ++ "-" ++ (⟨f3⟩ : String)
      | none => ⟨f3⟩

def removeChar (ch : Char) (s : String) : String := ⟨s.data.filter (fun c => c ≠ ch)⟩

/-- The video links collected by `create_hugo_post` (src/app.py:386-397):
one `https://t.me/<channel>/<id>` link per document bearing a
`DocumentAttributeVideo`. -/
def videoLinksOf (channelTitle : String) (group : List Msg) : List String :=
  group.filterMap (fun m =>
    match m.media with
    | some (TMedia.document _ _ true) =>
      some ("https://t.me/" ++ removeChar '@' channelTitle ++ "/" ++ toString m.id)
    | _ => none)

/-- The combined group text (src/app.py:369-400): each message stripped,
its trailing continuation marker removed, joined by blank lines, the whole
stripped. -/
def combinedRaw (group : List Msg) : String :=
  group.foldl (fun acc m => acc ++ stripMarkerSuffix m.text ++ "\n\n") ""

def combinedText (group : List Msg) : String := pyStrip (combinedRaw group)

/-- `re.sub(r"\*+", "", s).strip()`. -/
def removeStarsStrip (s : String) : String := pyStrip ⟨s.data.filter (fun c => c ≠ '*')⟩

/-- The render-time title truncation (src/app.py:432-435): empty titles
become "Press Release"; a title longer than 30 characters is cut to its
first 70 characters, right-stripped and given an ellipsis. -/
def hugoTitle (t : String) : String :=
  let t1 := if t = "" then "Press Release" else t
  if 30 < t1.length then rstripPy ⟨t1.data.take 70⟩ ++ "..." else t1

def escapeQuotes (s : String) : String :=
  ⟨s.data.foldr (fun c acc => if c = '"' then '\\' :: '"' :: acc else c :: acc) []⟩

/-- The frontmatter block of `create_hugo_post` (src/app.py:437-447). -/
def frontmatterOf (hugoDate title party : String) : String :=
  "+++\ndate = \x27" ++ hugoDate ++ "\x27\ndraft = false\ntitle = \"" ++
    escapeQuotes title ++ "\"\nauthors = [\x27" ++ party ++ "\x27]"

/-- The `image-*-*.jpg` glob of the gallery block (src/app.py:493). -/
def galleryMatch (s : String) : Bool :=
  let l := s.data
  startsWithL "image-".data l && startsWithL ".jpg".data.reverse l.reverse &&
    ((l.drop 6).take (l.length - 10)).contains '-'

/-- The body lines of the post document (src/app.py:450-495). -/
def contentOf (vlinks : List String) (s : PStruct) (galleryNames : List String) : List String :=
  (if vlinks = [] then [] else
    "<h2>Videos</h2>" :: (vlinks.map (fun l => "[📹 Watch Video](" ++ l ++ ")") ++ [""])) ++
  (if s.party_name = "" then [] else ["<h1>" ++ s.party_name ++ "</h1>"]) ++
  (if s.committee = "" then [] else ["<h2>" ++ s.committee ++ "</h2>"]) ++
  (if s.press_release then ["<h3>Press Release</h3>"] else []) ++
  (if s.date = "" then [] else ["Date: " ++ s.date, ""]) ++
  (match s.content_lines with
   | [] => []
   | c0 :: rest =>
     ["<h2>" ++ removeStarsStrip c0 ++ "</h2>", ""] ++
     rest.foldr (fun line acc =>
       (⟨(rstripPy line).data.filter (fun c => c ≠ '*')⟩ : String) :: "" :: acc) []) ++
  galleryNames.foldr (fun nm acc => ("![Image](" ++ nm ++ ")") :: "" :: acc) []

/-- `create_hugo_post` (src/app.py:361-503): returns the folder name, the
`index.md` content, and the media-download state, or `none` for an empty
group.  `today` stands for `datetime.now().strftime('%Y-%m-%d')` and
`stamp` for the folder-name fallback stamp. -/
def create_hugo_post (ok : Nat → Bool) (group : List Msg) (channelTitle : String)
    (today stamp : String) : Option (String × String × MediaState) :=
  if group = [] then none
  else
    let combined := combinedText group
    let vlinks := videoLinksOf channelTitle group
    let hasMedia := group.any (fun m => m.media.isSome)
    let s0 := parse_message_structure combined
    let s1 := { s0 with
      party_name := if s0.party_name = "" then s0.party_name else removeStarsStrip s0.party_name,
      committee := if s0.committee = "" then s0.committee else removeStarsStrip s0.committee }
    let folderName := generate_folder_name stamp combined s1.date
    let mst := if hasMedia then download_album_media ok group folderName
               else { featured := none, imageCount := 0, files := [] }
    let hugoDate := if s1.date = "" then today else convert_date_format today s1.date
    let title := hugoTitle s1.title
    let fm := frontmatterOf hugoDate title s1.party_name ++ "\n+++\n\n"
    let gallery := List.insertionSort (fun a b : String => a ≤ b)
      ((mst.files.map Prod.snd).filter galleryMatch)
    let doc := fm ++ String.intercalate "\n" (contentOf vlinks s1 gallery)
    some (folderName, doc, mst)

/-- `g` is a marker series with shared total `t`: the `j`-th message
carries the marker `(j+1, t)`. -/
def seriesAt (g : List Msg) (t : Nat) : Prop :=
  ∀ j (h : j < g.length), detectMarker (g[j]).text = some (j + 1, t)

/-- The shape every group emitted by `group_messages` actually has: a
singleton, or a gap-free prefix of a series `1..t` with shared total
`t ≥ 2` (complete exactly when the length reaches `t`). -/
def GoodGroup (g : List Msg) : Prop :=
  g ≠ [] ∧ (g.length = 1 ∨ ∃ t, 2 ≤ t ∧ g.length ≤ t ∧ seriesAt g t)

/-- The loop invariant of `group_messages`: all emitted groups are good
and the open group, when one exists, is a proper gap-free series prefix
whose bookkeeping counters match its length. -/
def StInv (st : GState) : Prop :=
  (∀ g ∈ st.grouped, GoodGroup g) ∧
  ((st.current = [] ∧ st.expecting = false) ∨
   (st.expecting = true ∧ 2 ≤ st.expectedTotal ∧ 1 ≤ st.current.length ∧
    st.current.length < st.expectedTotal ∧ st.expectedNext = st.current.length + 1 ∧
    seriesAt st.current st.expectedTotal))

def markersOf (g : List Msg) : List (Option (Nat × Nat)) :=
  g.map (fun m => detectMarker m.text)

/-- The invariant claimed by the spec for every emitted group, literally:
either exactly one message with no marker, or markers exactly
`1..total` in order with the matching shared total and no gaps. -/
def specGroupInvariant (g : List Msg) : Prop :=
  (g.length = 1 ∧ ∀ m ∈ g, detectMarker m.text = none) ∨
  (∃ t, markersOf g = (List.range t).map (fun j => some (j + 1, t)))

/-- A media payload that the download loops always attempt: photos and
documents (any MIME).  Other media kinds use the best-effort branch whose
realized path may be `None`. -/
def isPhotoOrDoc (m : Msg) : Prop :=
  m.media = some TMedia.photo ∨
    ∃ mime orig hv, m.media = some (TMedia.document mime orig hv)

/-! ### Helper lemmas -/

theorem takeWhile_append_all (p : Char → Bool) (xs ys : List Char)
    (h : ∀ x ∈ xs, p x = true) :
    (xs ++ ys).takeWhile p = xs ++ ys.takeWhile p := by
  induction xs with
  | nil => simp
  | cons a as ih =>
    have ha : p a = true := h a (List.mem_cons_self a as)
    simp only [List.cons_append, List.takeWhile_cons, ha, if_true]
    rw [ih (fun x hx => h x (List.mem_cons_of_mem a hx))]

theorem dropWhile_append_all (p : Char → Bool) (xs ys : List Char)
    (h : ∀ x ∈ xs, p x = true) :
    (xs ++ ys).dropWhile p = ys.dropWhile p := by
  induction xs with
  | nil => simp
  | cons a as ih =>
    have ha : p a = true := h a (List.mem_cons_self a as)
    simp only [List.cons_append, List.dropWhile_cons, ha, if_true]
    exact ih (fun x hx => h x (List.mem_cons_of_mem a hx))

theorem dropWhile_head_false (p : Char → Bool) :
    ∀ (l : List Char) (c : Char) (cs : List Char),
      l.dropWhile p = c :: cs → p c = false := by
  intro l
  induction l with
  | nil => intro c cs h; simp [List.dropWhile] at h
  | cons a as ih =>
    intro c cs h
    by_cases hp : p a = true
    · rw [List.dropWhile_cons_of_pos hp] at h
      exact ih c cs h
    · rw [List.dropWhile_cons_of_neg hp] at h
      cases h
      simpa using hp

theorem pyStripL_reverse_head (l : List Char) (c : Char) (cs : List Char)
    (h : (pyStripL l).reverse = c :: cs) : pyIsSpace c = false := by
  unfold pyStripL at h
  rw [List.reverse_reverse] at h
  exact dropWhile_head_false _ _ _ _ h

theorem splitClose_spec (r : List Char) :
    r = (splitClose r).2 ++ (splitClose r).1 ∧
      ((splitClose r).2 = [] ∨ (splitClose r).2 = [')']) := by
  unfold splitClose
  rcases r with _ | ⟨c, rest⟩
  · simp
  · by_cases hc : c = ')'
    · subst hc; simp
    · simp [hc]

theorem splitOpen_spec (r : List Char) :
    r = (splitOpen r).2 ++ (splitOpen r).1 ∧
      ((splitOpen r).2 = [] ∨ (splitOpen r).2 = ['(']) := by
  unfold splitOpen
  rcases r with _ | ⟨c, rest⟩
  · simp
  · by_cases hc : c = '('
    · subst hc; simp
    · simp [hc]

theorem splitClose_eq (r p1 close : List Char) (h : splitClose r = (p1, close)) :
    r = close ++ p1 ∧ (close = [] ∨ close = [')']) := by
  have hh := splitClose_spec r
  rw [h] at hh
  simpa using hh

theorem markerSplit_isSome_iff (s : List Char) (hstrip : pyStripL s = s) :
    (markerSplit s).isSome = true ↔ endsWithMarkerSpec s := by
  constructor
  · intro h
    rcases hsc : splitClose s.reverse with ⟨p1, close⟩
    have hclose := splitClose_eq s.reverse p1 close hsc
    simp only [markerSplit, hsc] at h
    by_cases htds : p1.takeWhile Char.isDigit = []
    · simp [htds] at h
    · rw [if_neg htds] at h
      rcases hdw : p1.dropWhile Char.isDigit with _ | ⟨c, r2⟩
      · rw [hdw] at h; simp at h
      · rw [hdw] at h
        by_cases hc : c = '/'
        · subst hc
          by_cases hids : r2.takeWhile Char.isDigit = []
          · simp [hids] at h
          · -- reconstruct the end-anchored decomposition
            have hp1 : p1 = p1.takeWhile Char.isDigit ++ ('/' :: r2) := by
              conv_lhs => rw [← List.takeWhile_append_dropWhile Char.isDigit p1]
              rw [hdw]
            have hr2 : r2 = r2.takeWhile Char.isDigit ++ r2.dropWhile Char.isDigit :=
              (List.takeWhile_append_dropWhile Char.isDigit r2).symm
            have hopen := splitOpen_spec (r2.dropWhile Char.isDigit)
            refine ⟨((splitOpen (r2.dropWhile Char.isDigit)).1).reverse,
              ((splitOpen (r2.dropWhile Char.isDigit)).2).reverse,
              (r2.takeWhile Char.isDigit).reverse,
              (p1.takeWhile Char.isDigit).reverse,
              close.reverse, [], ?_, ?_, ?_, ?_, ?_, ?_, ?_, ?_⟩
            · have hsr : s.reverse = close ++ (p1.takeWhile Char.isDigit ++ ('/' ::
                  (r2.takeWhile Char.isDigit ++
                    ((splitOpen (r2.dropWhile Char.isDigit)).2 ++
                      (splitOpen (r2.dropWhile Char.isDigit)).1)))) := by
                rw [← hopen.1, ← hr2, ← hp1]
                exact hclose.1
              have hs2 : s = (close ++ (p1.takeWhile Char.isDigit ++ ('/' ::
                  (r2.takeWhile Char.isDigit ++
                    ((splitOpen (r2.dropWhile Char.isDigit)).2 ++
                      (splitOpen (r2.dropWhile Char.isDigit)).1))))).reverse := by
                rw [← hsr, List.reverse_reverse]
              rw [hs2]
              simp [List.reverse_append, List.append_assoc]
            · rcases hopen.2 with h2 | h2 <;> rw [h2] <;> simp
            · simp [hids]
            · intro x hx
              rw [List.mem_reverse] at hx
              exact List.mem_takeWhile_imp hx
            · simp [htds]
            · intro x hx
              rw [List.mem_reverse] at hx
              exact List.mem_takeWhile_imp hx
            · rcases hclose.2 with h2 | h2 <;> rw [h2] <;> simp
            · intro x hx
              simp at hx
        · simp [hc] at h
  · rintro ⟨pre, par1, ds1, ds2, par2, ws, hdec, hpar1, hds1ne, hds1, hds2ne, hds2, hpar2, hws⟩
    -- trailing whitespace is impossible after strip, so ws = []
    have hwsnil : ws = [] := by
      rcases hwr : ws.reverse with _ | ⟨w, wtl⟩
      · simpa using congrArg List.reverse hwr
      · exfalso
        have hw : w ∈ ws := by
          have : w ∈ ws.reverse := by rw [hwr]; exact List.mem_cons_self w wtl
          rwa [List.mem_reverse] at this
        have hsp : pyIsSpace w = true := hws w hw
        have hrev : s.reverse = w :: (wtl ++ (par2.reverse ++ (ds2.reverse ++ ('/' ::
            (ds1.reverse ++ (par1.reverse ++ pre.reverse)))))) := by
          rw [hdec]
          simp [List.reverse_append, hwr, List.append_assoc]
        have := pyStripL_reverse_head s w _ (by rw [hstrip]; exact hrev)
        rw [hsp] at this
        exact Bool.true_eq_false.mp this
    subst hwsnil
    have hrev : s.reverse = par2 ++ (ds2.reverse ++ ('/' ::
        (ds1.reverse ++ (par1.reverse ++ pre.reverse)))) := by
      rcases hpar2 with h2 | h2 <;> subst h2 <;> rw [hdec] <;>
        simp [List.reverse_append, List.append_assoc]
    have hdigs2 : ∀ x ∈ ds2.reverse, Char.isDigit x = true := by
      intro x hx; rw [List.mem_reverse] at hx; exact hds2 x hx
    have hdigs1 : ∀ x ∈ ds1.reverse, Char.isDigit x = true := by
      intro x hx; rw [List.mem_reverse] at hx; exact hds1 x hx
    -- the closing-parenthesis peel yields exactly the part after par2
    have hp1eq : (splitClose s.reverse).1 = ds2.reverse ++ ('/' ::
        (ds1.reverse ++ (par1.reverse ++ pre.reverse))) := by
      rcases hpar2 with h2 | h2
      · subst h2
        rw [hrev]
        rcases hd2r : ds2.reverse with _ | ⟨d, dtl⟩
        · exfalso; exact hds2ne (by simpa using congrArg List.reverse hd2r)
        · have hd : Char.isDigit d = true := by
            refine hdigs2 d ?_
            rw [hd2r]
            exact List.mem_cons_self d dtl
          have hdne : ¬ d = ')' := by
            intro hdeq; rw [hdeq] at hd; exact absurd hd (by decide)
          unfold splitClose
          simp [hdne]
      · subst h2
        rw [hrev]
        unfold splitClose
        simp
    have htds : (splitClose s.reverse).1.takeWhile Char.isDigit = ds2.reverse := by
      rw [hp1eq, takeWhile_append_all _ _ _ hdigs2]
      have hslash : ('/' : Char).isDigit = false := by decide
      simp [List.takeWhile_cons, hslash]
    have hdrop : (splitClose s.reverse).1.dropWhile Char.isDigit = '/' ::
        (ds1.reverse ++ (par1.reverse ++ pre.reverse)) := by
      rw [hp1eq, dropWhile_append_all _ _ _ hdigs2]
      have hslash : ('/' : Char).isDigit = false := by decide
      simp [List.dropWhile_cons, hslash]
    have htdsne : (splitClose s.reverse).1.takeWhile Char.isDigit ≠ [] := by
      rw [htds]
      intro hcon
      exact hds2ne (by simpa using congrArg List.reverse hcon)
    have hidsne : (ds1.reverse ++ (par1.reverse ++ pre.reverse)).takeWhile Char.isDigit ≠ [] := by
      rcases hd1r : ds1.reverse with _ | ⟨e, etl⟩
      · exfalso; exact hds1ne (by simpa using congrArg List.reverse hd1r)
      · have he : Char.isDigit e = true := by
          refine hdigs1 e ?_
          rw [hd1r]
          exact List.mem_cons_self e etl
        simp [List.takeWhile_cons, he]
    simp only [markerSplit]
    rw [if_neg htdsne, hdrop]
    simp [hidsne]

theorem dropWhile_self (p : Char → Bool) (l : List Char) :
    (l.dropWhile p).dropWhile p = l.dropWhile p := by
  rcases hd : l.dropWhile p with _ | ⟨c, cs⟩
  · simp
  · have hc := dropWhile_head_false p l c cs hd
    rw [List.dropWhile_cons_of_neg (by simp [hc])]

theorem dropWhile_length_le' (p : Char → Bool) (l : List Char) :
    (l.dropWhile p).length ≤ l.length := by
  induction l with
  | nil => simp
  | cons a as ih =>
    by_cases hp : p a = true
    · rw [List.dropWhile_cons_of_pos hp]
      exact Nat.le_succ_of_le ih
    · rw [List.dropWhile_cons_of_neg (by simp [hp])]

theorem head_not_of_dropWhile_eq_self (p : Char → Bool) (c : Char) (cs : List Char)
    (h : (c :: cs).dropWhile p = c :: cs) : p c = false := by
  by_cases hp : p c = true
  · rw [List.dropWhile_cons_of_pos hp] at h
    have hle := dropWhile_length_le' p cs
    rw [h] at hle
    simp at hle
  · simpa using hp

theorem rstrip_decomp (p : Char → Bool) (X : List Char) :
    X = (X.reverse.dropWhile p).reverse ++ (X.reverse.takeWhile p).reverse := by
  conv_lhs => rw [← List.reverse_reverse X, ← List.takeWhile_append_dropWhile p X.reverse]
  rw [List.reverse_append]

theorem pyStripL_idem (l : List Char) : pyStripL (pyStripL l) = pyStripL l := by
  have hA : (l.dropWhile pyIsSpace).dropWhile pyIsSpace = l.dropWhile pyIsSpace :=
    dropWhile_self pyIsSpace l
  have hSdef : pyStripL l = ((l.dropWhile pyIsSpace).reverse.dropWhile pyIsSpace).reverse := rfl
  have h1 : (pyStripL l).dropWhile pyIsSpace = pyStripL l := by
    rcases hS : pyStripL l with _ | ⟨c, cs⟩
    · simp
    · have hA2 : l.dropWhile pyIsSpace = (c :: cs) ++
          ((l.dropWhile pyIsSpace).reverse.takeWhile pyIsSpace).reverse := by
        rw [← hS, hSdef]
        exact rstrip_decomp pyIsSpace (l.dropWhile pyIsSpace)
      have hc : pyIsSpace c = false := by
        refine head_not_of_dropWhile_eq_self pyIsSpace c
          (cs ++ ((l.dropWhile pyIsSpace).reverse.takeWhile pyIsSpace).reverse) ?_
        rw [← List.cons_append, ← hA2]
        exact hA
      rw [List.dropWhile_cons_of_neg (by simp [hc])]
  have h2 : (pyStripL l).reverse.dropWhile pyIsSpace = (pyStripL l).reverse := by
    rw [hSdef, List.reverse_reverse]
    exact dropWhile_self pyIsSpace _
  calc pyStripL (pyStripL l)
      = (((pyStripL l).dropWhile pyIsSpace).reverse.dropWhile pyIsSpace).reverse := rfl
    _ = ((pyStripL l).reverse.dropWhile pyIsSpace).reverse := by rw [h1]
    _ = (pyStripL l).reverse.reverse := by rw [h2]
    _ = pyStripL l := List.reverse_reverse _

/-- C4: for every text, the continuation-marker detector matches exactly
when the trimmed text ends with an optional opening parenthesis, digits,
`/`, digits, an optional closing parenthesis and optional trailing
whitespace; it never fires on a mid-text occurrence; in particular
`detect("Statement (2/3)") = (2, 3)` and `detect("2/3 more") = None`. -/
theorem c4_detector_end_anchored :
    (∀ t : String, (detectMarker t).isSome = true ↔ endsWithMarkerSpec (pyStripL t.data)) ∧
    detectMarker "Statement (2/3)" = some (2, 3) ∧
    detectMarker "2/3 more" = none := by
  refine ⟨fun t => ?_, by decide, by decide⟩
  have hiff : (detectMarker t).isSome = (markerSplit (pyStripL t.data)).isSome := by
    unfold detectMarker
    cases markerSplit (pyStripL t.data) with
    | none => rfl
    | some v => rcases v with ⟨pre, i, n⟩; rfl
  rw [hiff]
  exact markerSplit_isSome_iff (pyStripL t.data) (pyStripL_idem _)

theorem detectMarker_ne_empty (t : String) (p : Nat × Nat) (h : detectMarker t = some p) :
    ¬ t = "" := by
  intro ht
  rw [ht, (by decide : detectMarker "" = none)] at h
  exact Option.noConfusion h

/-- C1: three chronological messages whose texts carry the markers 1/3,
2/3, 3/3 in that order are grouped into exactly one group holding them in
that order. -/
theorem c1_grouper_valid_series (m1 m2 m3 : Msg)
    (h1 : detectMarker m1.text = some (1, 3))
    (h2 : detectMarker m2.text = some (2, 3))
    (h3 : detectMarker m3.text = some (3, 3)) :
    group_messages [m1, m2, m3] = [[m1, m2, m3]] := by
  have e1 := detectMarker_ne_empty _ _ h1
  have e2 := detectMarker_ne_empty _ _ h2
  have e3 := detectMarker_ne_empty _ _ h3
  simp [group_messages, groupStep, flushGrouped, e1, e2, e3, h1, h2, h3]

/-- Witness for C1 at a concrete input. -/
theorem c1_grouper_valid_series_witness :
    group_messages
      [⟨1, "a (1/3)", none, none⟩, ⟨2, "b (2/3)", none, none⟩, ⟨3, "c (3/3)", none, none⟩] =
      [[⟨1, "a (1/3)", none, none⟩, ⟨2, "b (2/3)", none, none⟩, ⟨3, "c (3/3)", none, none⟩]] :=
  c1_grouper_valid_series _ _ _ (by decide) (by decide) (by decide)

/-- C2: a 1/3 message followed directly by a 3/3 message (the 2/3 part is
missing) yields two groups: the 1/3 message alone (its series closed early
as broken), then the 3/3 message as a singleton group. -/
theorem c2_grouper_broken_sequence (m1 m2 : Msg)
    (h1 : detectMarker m1.text = some (1, 3))
    (h2 : detectMarker m2.text = some (3, 3)) :
    group_messages [m1, m2] = [[m1], [m2]] := by
  have e1 := detectMarker_ne_empty _ _ h1
  have e2 := detectMarker_ne_empty _ _ h2
  simp [group_messages, groupStep, flushGrouped, e1, e2, h1, h2]

/-- Witness for C2 at a concrete input. -/
theorem c2_grouper_broken_sequence_witness :
    group_messages [⟨1, "a (1/3)", none, none⟩, ⟨2, "b (3/3)", none, none⟩] =
      [[⟨1, "a (1/3)", none, none⟩], [⟨2, "b (3/3)", none, none⟩]] :=
  c2_grouper_broken_sequence _ _ (by decide) (by decide)

theorem goodGroup_singleton (m : Msg) : GoodGroup [m] :=
  ⟨by simp, Or.inl rfl⟩

theorem grouped_append_good (A : List (List Msg)) (b : List Msg)
    (hA : ∀ g ∈ A, GoodGroup g) (hb : GoodGroup b) :
    ∀ g ∈ A ++ [b], GoodGroup g := by
  intro g hgmem
  rcases List.mem_append.mp hgmem with hmem | hmem
  · exact hA g hmem
  · rw [List.mem_singleton] at hmem
    subst hmem
    exact hb

theorem goodGroup_of_seriesPrefix (cur : List Msg) (t : Nat)
    (h2 : 2 ≤ t) (h1 : 1 ≤ cur.length) (hle : cur.length ≤ t) (hs : seriesAt cur t) :
    GoodGroup cur := by
  refine ⟨fun hnil => by rw [hnil] at h1; simp at h1, ?_⟩
  by_cases hl : cur.length = 1
  · exact Or.inl hl
  · exact Or.inr ⟨t, h2, hle, hs⟩

theorem flush_good (st : GState)
    (hg : ∀ g ∈ st.grouped, GoodGroup g)
    (hcur : st.current = [] ∨ GoodGroup st.current) :
    ∀ g ∈ flushGrouped st, GoodGroup g := by
  unfold flushGrouped
  by_cases hc : st.current = []
  · simpa [hc] using hg
  · rw [if_neg hc]
    rcases hcur with h1 | h1
    · exact absurd h1 hc
    · exact grouped_append_good _ _ hg h1

theorem seriesAt_singleton (m : Msg) (t : Nat)
    (hm : detectMarker m.text = some (1, t)) : seriesAt [m] t := by
  intro j hj
  have hj0 : j = 0 := by simpa using hj
  subst hj0
  simpa using hm

theorem seriesAt_append (cur : List Msg) (t : Nat) (m : Msg)
    (hs : seriesAt cur t) (hm : detectMarker m.text = some (cur.length + 1, t)) :
    seriesAt (cur ++ [m]) t := by
  intro j hj
  rw [List.length_append, List.length_singleton] at hj
  by_cases hlt : j < cur.length
  · rw [List.getElem_append_left hlt]
    exact hs j hlt
  · have hj' : j = cur.length := by omega
    subst hj'
    rw [List.getElem_append_right (Nat.le_refl _)]
    simpa using hm

theorem groupStep_inv (st : GState) (m : Msg) (h : StInv st) : StInv (groupStep st m) := by
  obtain ⟨hg, hcur⟩ := h
  have hcurGood : st.current = [] ∨ GoodGroup st.current := by
    rcases hcur with ⟨h1, _⟩ | ⟨_, h2, h3, h4, _, h6⟩
    · exact Or.inl h1
    · exact Or.inr (goodGroup_of_seriesPrefix _ _ h2 h3 (Nat.le_of_lt h4) h6)
  by_cases hmt : m.text = ""
  · rw [groupStep, if_pos hmt]
    exact ⟨hg, hcur⟩
  · rw [groupStep, if_neg hmt]
    split
    next c t hdm =>
      split
      next hc1 =>
        split
        next ht =>
          exact ⟨flush_good st hg hcurGood,
            Or.inr ⟨rfl, (by omega : 2 ≤ t), (by simp : 1 ≤ [m].length),
              (by simpa using ht : [m].length < t), rfl,
              (by subst hc1; exact seriesAt_singleton m t hdm :
                seriesAt [m] t)⟩⟩
        next ht =>
          exact ⟨grouped_append_good _ _ (flush_good st hg hcurGood)
            (goodGroup_singleton m), Or.inl ⟨rfl, rfl⟩⟩
      next hc1 =>
        split
        next hcond =>
          obtain ⟨hexp, hcnext, httot⟩ := hcond
          rcases hcur with ⟨_, hfalse⟩ | ⟨_, h2, h3, h4, h5, h6⟩
          · rw [hexp] at hfalse
            simp at hfalse
          · have hmarker : detectMarker m.text =
                some (st.current.length + 1, st.expectedTotal) := by
              rw [hdm, hcnext, h5, httot]
            split
            next hct =>
              refine ⟨grouped_append_good _ _ hg ?_, Or.inl ⟨rfl, rfl⟩⟩
              refine goodGroup_of_seriesPrefix _ st.expectedTotal h2 (by simp) ?_
                (seriesAt_append _ _ _ h6 hmarker)
              rw [List.length_append, List.length_singleton]
              omega
            next hct =>
              have hc' : c = st.current.length + 1 := by rw [hcnext, h5]
              refine ⟨hg, Or.inr ⟨rfl, h2, ?_, ?_, ?_,
                seriesAt_append _ _ _ h6 hmarker⟩⟩
              · show 1 ≤ (st.current ++ [m]).length
                rw [List.length_append, List.length_singleton]
                omega
              · show (st.current ++ [m]).length < st.expectedTotal
                rw [List.length_append, List.length_singleton]
                omega
              · show st.expectedNext + 1 = (st.current ++ [m]).length + 1
                rw [List.length_append, List.length_singleton, h5]
        next hcond =>
          exact ⟨grouped_append_good _ _ (flush_good st hg hcurGood)
            (goodGroup_singleton m), Or.inl ⟨rfl, rfl⟩⟩
    next hdm =>
      exact ⟨grouped_append_good _ _ (flush_good st hg hcurGood)
        (goodGroup_singleton m), Or.inl ⟨rfl, rfl⟩⟩

theorem foldl_groupStep_inv (msgs : List Msg) (st : GState) (h : StInv st) :
    StInv (msgs.foldl groupStep st) := by
  induction msgs generalizing st with
  | nil => exact h
  | cons a as ih => exact ih (groupStep st a) (groupStep_inv st a h)

theorem group_messages_good (msgs : List Msg) :
    ∀ g ∈ group_messages msgs, GoodGroup g := by
  have hinv := foldl_groupStep_inv msgs
    { grouped := [], current := [], expecting := false, expectedNext := 1, expectedTotal := 1 }
    ⟨by simp, Or.inl ⟨rfl, rfl⟩⟩
  obtain ⟨hg, hcur⟩ := hinv
  have hcurGood : (msgs.foldl groupStep
      { grouped := [], current := [], expecting := false,
        expectedNext := 1, expectedTotal := 1 }).current = [] ∨
      GoodGroup (msgs.foldl groupStep
        { grouped := [], current := [], expecting := false,
          expectedNext := 1, expectedTotal := 1 }).current := by
    rcases hcur with ⟨h1, _⟩ | ⟨_, h2, h3, h4, _, h6⟩
    · exact Or.inl h1
    · exact Or.inr (goodGroup_of_seriesPrefix _ _ h2 h3 (Nat.le_of_lt h4) h6)
  exact flush_good _ hg hcurGood

/-- C5 (amended): every group emitted by `group_messages` (broken-sequence
and end-of-stream groups included) is either a one-message group, or a
gap-free prefix of a marker series with markers `(1,t) .. (k,t)` for a
shared total `t ≥ 2` and `k ≤ t`; a singleton may carry a marker (broken
sequences) and a multi-message group may be incomplete (`k < t`). -/
theorem c5_emitted_group_shape (msgs : List Msg) (g : List Msg)
    (hmem : g ∈ group_messages msgs) :
    g ≠ [] ∧ (g.length = 1 ∨ ∃ t, 2 ≤ t ∧ g.length ≤ t ∧ seriesAt g t) :=
  group_messages_good msgs g hmem

/-- Witness for C5 (amended) at a concrete input. -/
theorem c5_emitted_group_shape_witness :
    [(⟨1, "hello", none, none⟩ : Msg)] ∈ group_messages [⟨1, "hello", none, none⟩] ∧
    ([(⟨1, "hello", none, none⟩ : Msg)] ≠ [] ∧
      (([(⟨1, "hello", none, none⟩ : Msg)].length = 1) ∨
        ∃ t, 2 ≤ t ∧ [(⟨1, "hello", none, none⟩ : Msg)].length ≤ t ∧
          seriesAt [⟨1, "hello", none, none⟩] t)) :=
  ⟨by decide, c5_emitted_group_shape [⟨1, "hello", none, none⟩] _ (by decide)⟩

/-- C5 counterexample: a lone `3/3` message is emitted as a singleton
group that carries a marker and is not the complete series `1..3`, so it
satisfies neither arm of the claimed invariant. -/
theorem c5_counterexample :
    group_messages [⟨1, "3/3", none, none⟩] = [[⟨1, "3/3", none, none⟩]] ∧
    ¬ specGroupInvariant [⟨1, "3/3", none, none⟩] := by
  refine ⟨by decide, ?_⟩
  intro hspec
  rcases hspec with ⟨hlen, hmk⟩ | ⟨t, hmap⟩
  · have hmem : (⟨1, "3/3", none, none⟩ : Msg) ∈ [(⟨1, "3/3", none, none⟩ : Msg)] :=
      List.mem_singleton.mpr rfl
    exact absurd (hmk _ hmem) (by decide)
  · have hlen1 : t = 1 := by
      have hl := congrArg List.length hmap
      simpa [markersOf] using hl.symm
    subst hlen1
    exact absurd hmap (by decide)

/-- C6 counterexample: the detector has no index-vs-total check; on the
text `3/2` it returns index 3 and total 2 with 3 > 2. -/
theorem c6_counterexample :
    detectMarker "3/2" = some (3, 2) ∧ ¬ (3 : Nat) ≤ 2 := by decide

/-- C6 (amended): the detector itself does not enforce `index ≤ total`
(see the counterexample), but every message of every multi-message group
emitted by `group_messages` carries a marker whose index is at most its
total. -/
theorem c6_marker_index_le_total (msgs : List Msg) (g : List Msg) (m : Msg)
    (hmem : g ∈ group_messages msgs) (hlen : 2 ≤ g.length) (hm : m ∈ g) :
    ∃ i n, detectMarker m.text = some (i, n) ∧ i ≤ n := by
  obtain ⟨hne, hcase⟩ := group_messages_good msgs g hmem
  rcases hcase with h1 | ⟨t, h2, h3, hs⟩
  · omega
  · obtain ⟨⟨j, hj⟩, hget⟩ := List.mem_iff_get.mp hm
    have hgm : g[j] = m := (List.get_eq_getElem g ⟨j, hj⟩).symm.trans hget
    refine ⟨j + 1, t, ?_, ?_⟩
    · rw [← hgm]
      exact hs j hj
    · omega

/-- Witness for C6 (amended) at a concrete input. -/
theorem c6_marker_index_le_total_witness :
    ∃ i n, detectMarker (Msg.text ⟨1, "a (1/2)", none, none⟩) = some (i, n) ∧ i ≤ n :=
  c6_marker_index_le_total
    [⟨1, "a (1/2)", none, none⟩, ⟨2, "b (2/2)", none, none⟩]
    [⟨1, "a (1/2)", none, none⟩, ⟨2, "b (2/2)", none, none⟩]
    ⟨1, "a (1/2)", none, none⟩ (by decide) (by decide) (by decide)

/-- C3: the structure parser classifies the six-line example exactly as
the spec states: organization, sub-unit, press-release flag, date, title
and both body lines. -/
theorem c3_structure_parser_example :
    parse_message_structure
      "Example Workers Union\nCentral Committee\nPress Release\n01-02-2023\nWe condemn this action.\nMore detail." =
    { party_name := "Example Workers Union", committee := "Central Committee",
      press_release := true, date := "01-02-2023", title := "We condemn this action.",
      content_lines := ["We condemn this action.", "More detail."] } := by decide

theorem classifyLine_title (acc : PStruct × Bool) (line : String) :
    (classifyLine acc line).1.title = acc.1.title := by
  simp only [classifyLine]
  split
  · rfl
  · split
    · rfl
    · split
      · rfl
      · split
        · split
          · rfl
          · rfl
        · rfl

theorem foldl_classify_title (lines : List String) (acc : PStruct × Bool) :
    (lines.foldl classifyLine acc).1.title = acc.1.title := by
  induction lines generalizing acc with
  | nil => rfl
  | cons a as ih => rw [List.foldl_cons, ih, classifyLine_title]

theorem parse_title_of_content (text : String) (b : String) (rest : List String)
    (h : (parse_message_structure text).content_lines = b :: rest) :
    (parse_message_structure text).title = truncTitle b := by
  have htitle : ((strippedLines text).foldl classifyLine
      ({ party_name := "", committee := "", press_release := false,
         date := "", title := "", content_lines := [] }, false)).1.title = "" :=
    foldl_classify_title _ _
  revert h
  simp only [parse_message_structure]
  split
  next hnil =>
    intro h
    rw [hnil] at h
    exact absurd h (by simp)
  next c cls hcons =>
    intro h
    rw [if_pos htitle] at h ⊢
    have h' : ((strippedLines text).foldl classifyLine
        ({ party_name := "", committee := "", press_release := false,
           date := "", title := "", content_lines := [] }, false)).1.content_lines =
        b :: rest := h
    rw [hcons] at h'
    injection h' with hcb hrest
    rw [hcb]

theorem truncTitle_short (b : String) (h : ¬ 100 < b.length) : truncTitle b = b := by
  unfold truncTitle
  rw [if_neg h]

theorem strLength_append (a b : String) : (a ++ b).length = a.length + b.length := by
  cases a with
  | mk da =>
    cases b with
    | mk db =>
      show (String.mk (da ++ db)).length = _
      simp [String.length]

theorem truncTitle_length (b : String) (h : 30 < b.length) : 30 < (truncTitle b).length := by
  unfold truncTitle
  by_cases h100 : 100 < b.length
  · rw [if_pos h100, strLength_append]
    have htake : (String.mk (b.data.take 100)).length = 100 := by
      show (b.data.take 100).length = 100
      rw [List.length_take]
      have : b.data.length = b.length := rfl
      omega
    omega
  · rw [if_neg h100]
    exact h

theorem truncTitle_ne_empty (b : String) (h : 30 < b.length) : ¬ truncTitle b = "" := by
  intro he
  have := truncTitle_length b h
  rw [he] at this
  exact absurd this (by decide)

/-- C7: when a parsed group has a non-empty first body line `b`, the
rendered frontmatter title is `b` itself if `b` has at most 30
characters, and otherwise the first 70 characters of the parsed title
(i.e. of `b` after the parser's 100-character-plus-ellipsis truncation),
right-stripped, followed by `...`. -/
theorem c7_title_truncation (text : String) (b : String) (rest : List String)
    (h : (parse_message_structure text).content_lines = b :: rest) (hb : ¬ b = "") :
    hugoTitle (parse_message_structure text).title =
      if b.length ≤ 30 then b
      else rstripPy ⟨(truncTitle b).data.take 70⟩ ++ "..." := by
  rw [parse_title_of_content text b rest h]
  by_cases h30 : b.length ≤ 30
  · rw [if_pos h30]
    rw [truncTitle_short b (by omega)]
    simp only [hugoTitle]
    rw [if_neg hb, if_neg (by omega : ¬ 30 < b.length)]
  · rw [if_neg h30]
    have h30' : 30 < b.length := by omega
    simp only [hugoTitle]
    rw [if_neg (truncTitle_ne_empty b h30'), if_pos (truncTitle_length b h30')]

/-- Witness for C7 at a concrete input. -/
theorem c7_title_truncation_witness :
    hugoTitle (parse_message_structure "we condemn x").title =
      (if ("we condemn x" : String).length ≤ 30 then ("we condemn x" : String)
       else rstripPy ⟨(truncTitle "we condemn x").data.take 70⟩ ++ "...") :=
  c7_title_truncation "we condemn x" "we condemn x" [] (by decide) (by decide)

theorem sorted_perm_eq : ∀ (l2 l1 : List Msg), l1.Perm l2 → l1.Pairwise msgLe →
    l2.Pairwise (fun a b => a.id < b.id) → l1 = l2 := by
  intro l2
  induction l2 with
  | nil =>
    intro l1 hp _ _
    exact hp.eq_nil
  | cons b t2 ih =>
    intro l1 hp h1 h2
    rcases l1 with _ | ⟨a, t1⟩
    · exact absurd (hp.symm.eq_nil) (by simp)
    · have hab : a = b := by
        by_contra hne
        have hbmem : b ∈ a :: t1 := hp.symm.subset (List.mem_cons_self b t2)
        have hamem : a ∈ b :: t2 := hp.subset (List.mem_cons_self a t1)
        have hb_t1 : b ∈ t1 := by
          rcases List.mem_cons.mp hbmem with hh | hh
          · exact absurd hh.symm hne
          · exact hh
        have ha_t2 : a ∈ t2 := by
          rcases List.mem_cons.mp hamem with hh | hh
          · exact absurd hh hne
          · exact hh
        have hle : msgLe a b := (List.pairwise_cons.mp h1).1 b hb_t1
        have hlt : b.id < a.id := (List.pairwise_cons.mp h2).1 a ha_t2
        unfold msgLe at hle
        omega
      subst hab
      rw [ih t1 (hp.cons_inv) (List.pairwise_cons.mp h1).2 (List.pairwise_cons.mp h2).2]

theorem sortById_eq_of_perm (l tgt : List Msg) (hperm : l.Perm tgt)
    (hsorted : tgt.Pairwise (fun a b => a.id < b.id)) :
    sortById l = tgt :=
  sorted_perm_eq tgt (sortById l) ((List.perm_insertionSort msgLe l).trans hperm)
    (List.sorted_insertionSort msgLe l) hsorted

theorem photoFilename_one (s : String) : photoFilename 1 s = "featured-" ++ s ++ ".jpg" := rfl

theorem photoFilename_two (s : String) : photoFilename 2 s = "image-2-" ++ s ++ ".jpg" := by
  unfold photoFilename
  rw [if_neg (by decide : ¬ (2 : Nat) = 1),
    show ("image-" ++ toString (2 : Nat) ++ "-" : String) = "image-2-" from rfl]

theorem photoFilename_three (s : String) : photoFilename 3 s = "image-3-" ++ s ++ ".jpg" := by
  unfold photoFilename
  rw [if_neg (by decide : ¬ (3 : Nat) = 1),
    show ("image-" ++ toString (3 : Nat) ++ "-" : String) = "image-3-" from rfl]

/-- C8: three photos forming one album cluster are named
`featured-<slug>.jpg`, `image-2-<slug>.jpg`, `image-3-<slug>.jpg` in
ascending message-id order, for every arrival order of the three
messages. -/
theorem c8_album_naming (m1 m2 m3 : Msg) (gid : Nat) (folderName : String) (l : List Msg)
    (hm1 : m1.media = some TMedia.photo) (hm2 : m2.media = some TMedia.photo)
    (hm3 : m3.media = some TMedia.photo)
    (hg1 : m1.grouped_id = some gid) (hg2 : m2.grouped_id = some gid)
    (hg3 : m3.grouped_id = some gid)
    (hgid : ¬ gid = 0)
    (hid12 : m1.id < m2.id) (hid23 : m2.id < m3.id)
    (hperm : l.Perm [m1, m2, m3]) :
    (download_album_media (fun _ => true) l folderName).files =
      [(m1.id, "featured-" ++ cleanFolderName folderName ++ ".jpg"),
       (m2.id, "image-2-" ++ cleanFolderName folderName ++ ".jpg"),
       (m3.id, "image-3-" ++ cleanFolderName folderName ++ ".jpg")] := by
  have hpw : ([m1, m2, m3] : List Msg).Pairwise (fun a b => a.id < b.id) := by
    simp only [List.pairwise_cons, List.mem_cons, List.mem_singleton]
    refine ⟨fun b hb => ?_, fun b hb => ?_, by simp⟩
    · rcases hb with hb | hb | hb
      · rw [hb]; omega
      · rw [hb]; omega
      · simp at hb
    · rcases hb with hb | hb
      · rw [hb]; omega
      · simp at hb
  have hsort : sortById l = [m1, m2, m3] := sortById_eq_of_perm l _ hperm hpw
  have hsort2 : sortById [m1, m2, m3] = [m1, m2, m3] :=
    sortById_eq_of_perm _ _ (List.Perm.refl _) hpw
  have hpart : partitionMedia [m1, m2, m3] = ([(gid, [m1, m2, m3])], []) := by
    simp [partitionMedia, partitionStep, hm1, hm2, hm3, hg1, hg2, hg3, hgid, addAlbum]
  simp only [download_album_media]
  rw [hsort, hpart]
  simp only [List.foldl_cons, List.foldl_nil]
  rw [hsort2]
  simp [stepAlbumMsg, hm1, hm2, hm3, stepPhoto, photoFilename_one, photoFilename_two,
    photoFilename_three]

/-- Witness for C8 at a concrete input (arrival order 2, 3, 1). -/
theorem c8_album_naming_witness :
    (download_album_media (fun _ => true)
      [⟨2, "", some TMedia.photo, some 7⟩, ⟨3, "", some TMedia.photo, some 7⟩,
       ⟨1, "", some TMedia.photo, some 7⟩] "My Post").files =
      [((1 : Nat), "featured-" ++ cleanFolderName "My Post" ++ ".jpg"),
       ((2 : Nat), "image-2-" ++ cleanFolderName "My Post" ++ ".jpg"),
       ((3 : Nat), "image-3-" ++ cleanFolderName "My Post" ++ ".jpg")] :=
  c8_album_naming ⟨1, "", some TMedia.photo, some 7⟩ ⟨2, "", some TMedia.photo, some 7⟩
    ⟨3, "", some TMedia.photo, some 7⟩ 7 "My Post"
    [⟨2, "", some TMedia.photo, some 7⟩, ⟨3, "", some TMedia.photo, some 7⟩,
     ⟨1, "", some TMedia.photo, some 7⟩]
    rfl rfl rfl rfl rfl rfl (by decide) (by decide) (by decide) (by decide)

/-- C10: in `download_album_media` the image counter is bumped before the
download is attempted, so a failed image download still consumes its
number; the featured slot is filled before the download for image
documents but only after a successful download for photos, so a failed
first image document still claims the featured filename while a failed
first photo leaves the featured slot unset. -/
theorem c10_counter_and_featured_on_failure :
    (∀ (ok : Nat → Bool) (slug : String) (st : MediaState) (m : Msg),
      m.media = some TMedia.photo → ok m.id = false →
      stepAlbumMsg ok slug st m =
        { featured := st.featured, imageCount := st.imageCount + 1, files := st.files }) ∧
    (∀ (ok : Nat → Bool) (slug : String) (st : MediaState) (m : Msg) (mime : String)
        (orig : Option String) (hv : Bool),
      m.media = some (TMedia.document mime orig hv) → containsS "image" mime = true →
      ok m.id = false →
      stepAlbumMsg ok slug st m =
        { featured := if st.featured = none
            then some (imageDocFilename (st.imageCount + 1) slug (docExt orig mime))
            else st.featured,
          imageCount := st.imageCount + 1, files := st.files }) ∧
    (∀ (ok : Nat → Bool) (slug : String) (st : MediaState) (m : Msg),
      m.media = some TMedia.photo → ok m.id = false → st.featured = none →
      (stepAlbumMsg ok slug st m).featured = none) ∧
    (∀ (ok : Nat → Bool) (slug : String) (st : MediaState) (m : Msg) (mime : String)
        (orig : Option String) (hv : Bool),
      m.media = some (TMedia.document mime orig hv) → containsS "image" mime = true →
      ok m.id = false → st.featured = none →
      (stepAlbumMsg ok slug st m).featured =
        some (imageDocFilename (st.imageCount + 1) slug (docExt orig mime))) := by
  refine ⟨?_, ?_, ?_, ?_⟩
  · intro ok slug st m hm hok
    simp [stepAlbumMsg, hm, stepPhoto, hok]
  · intro ok slug st m mime orig hv hm himg hok
    simp [stepAlbumMsg, hm, stepDocMedia, himg, stepImageDoc, hok]
  · intro ok slug st m hm hok hfeat
    simp [stepAlbumMsg, hm, stepPhoto, hok, hfeat]
  · intro ok slug st m mime orig hv hm himg hok hfeat
    simp [stepAlbumMsg, hm, stepDocMedia, himg, stepImageDoc, hok, hfeat]

/-- Witness for C10 at concrete inputs: a failed photo versus a failed
image document, both first in their group. -/
theorem c10_counter_and_featured_on_failure_witness :
    stepAlbumMsg (fun _ => false) "slug" ⟨none, 0, []⟩ ⟨1, "", some TMedia.photo, none⟩ =
      { featured := none, imageCount := 1, files := [] } ∧
    (stepAlbumMsg (fun _ => false) "slug" ⟨none, 0, []⟩
        ⟨2, "", some (TMedia.document "image/png" none false), none⟩).featured =
      some (imageDocFilename 1 "slug" (docExt none "image/png")) :=
  ⟨c10_counter_and_featured_on_failure.1 _ _ _ _ rfl rfl,
   c10_counter_and_featured_on_failure.2.2.2 _ _ _ _ _ _ _ rfl (by decide) rfl rfl⟩

theorem stepPhoto_files_mono (ok : Nat → Bool) (slug : String) (st : MediaState) (m : Msg)
    (x : Nat × String) (hx : x ∈ st.files) : x ∈ (stepPhoto ok slug st m).files := by
  simp only [stepPhoto]
  split
  · simp [hx]
  · exact hx

theorem stepImageDoc_files_mono (ok : Nat → Bool) (slug : String) (st : MediaState) (m : Msg)
    (mime : String) (orig : Option String) (x : Nat × String) (hx : x ∈ st.files) :
    x ∈ (stepImageDoc ok slug st m mime orig).files := by
  simp only [stepImageDoc]
  split
  · simp [hx]
  · exact hx

theorem stepVideoDoc_files_mono (ok : Nat → Bool) (slug : String) (st : MediaState) (m : Msg)
    (orig : Option String) (x : Nat × String) (hx : x ∈ st.files) :
    x ∈ (stepVideoDoc ok slug st m orig).files := by
  simp only [stepVideoDoc]
  split
  · simp [hx]
  · exact hx

theorem stepOtherDoc_files_mono (ok : Nat → Bool) (slug : String) (st : MediaState) (m : Msg)
    (orig : Option String) (x : Nat × String) (hx : x ∈ st.files) :
    x ∈ (stepOtherDoc ok slug st m orig).files := by
  simp only [stepOtherDoc]
  split
  · simp [hx]
  · exact hx

theorem stepDocMedia_files_mono (ok : Nat → Bool) (slug : String) (st : MediaState) (m : Msg)
    (mime : String) (orig : Option String) (x : Nat × String) (hx : x ∈ st.files) :
    x ∈ (stepDocMedia ok slug st m mime orig).files := by
  simp only [stepDocMedia]
  split
  · exact stepImageDoc_files_mono ok slug st m mime orig x hx
  · split
    · exact stepVideoDoc_files_mono ok slug st m orig x hx
    · exact stepOtherDoc_files_mono ok slug st m orig x hx

theorem stepAlbumMsg_files_mono (ok : Nat → Bool) (slug : String) (st : MediaState) (m : Msg)
    (x : Nat × String) (hx : x ∈ st.files) : x ∈ (stepAlbumMsg ok slug st m).files := by
  rcases hm : m.media with _ | med
  · simpa [stepAlbumMsg, hm] using hx
  · cases med with
    | photo =>
      simp only [stepAlbumMsg, hm]
      exact stepPhoto_files_mono ok slug st m x hx
    | document mime orig hv =>
      simp only [stepAlbumMsg, hm]
      exact stepDocMedia_files_mono ok slug st m mime orig x hx
    | otherMedia r =>
      simpa [stepAlbumMsg, hm] using hx

theorem stepSingleMsg_files_mono (ok : Nat → Bool) (slug : String) (st : MediaState) (m : Msg)
    (x : Nat × String) (hx : x ∈ st.files) : x ∈ (stepSingleMsg ok slug st m).files := by
  rcases hm : m.media with _ | med
  · simpa [stepSingleMsg, hm] using hx
  · cases med with
    | photo =>
      simp only [stepSingleMsg, hm]
      exact stepPhoto_files_mono ok slug st m x hx
    | document mime orig hv =>
      simp only [stepSingleMsg, hm]
      exact stepDocMedia_files_mono ok slug st m mime orig x hx
    | otherMedia r =>
      simp only [stepSingleMsg, hm]
      split
      · split
        · split <;> simp [hx]
        · exact hx
      · exact hx

theorem stepAlbumMsg_files_self (ok : Nat → Bool) (slug : String) (st : MediaState) (m : Msg)
    (hok : ok m.id = true) (hpd : isPhotoOrDoc m) :
    ∃ f, (m.id, f) ∈ (stepAlbumMsg ok slug st m).files := by
  rcases hpd with hm | ⟨mime, orig, hv, hm⟩
  · exact ⟨photoFilename (st.imageCount + 1) slug,
      by simp [stepAlbumMsg, hm, stepPhoto, hok]⟩
  · simp only [stepAlbumMsg, hm, stepDocMedia]
    split
    · exact ⟨imageDocFilename (st.imageCount + 1) slug (docExt orig mime),
        by simp [stepImageDoc, hok]⟩
    · split
      · rcases orig with _ | fn
        · exact ⟨"video-" ++ toString m.id ++ "-" ++ slug ++ ".mp4",
            by simp [stepVideoDoc, hok]⟩
        · exact ⟨pathStem fn ++ "-" ++ slug ++
              (if pathSfx fn = "" then ".mp4" else pathSfx fn),
            by simp [stepVideoDoc, hok]⟩
      · rcases orig with _ | fn
        · exact ⟨"document-" ++ toString m.id ++ "-" ++ slug ++ ".bin",
            by simp [stepOtherDoc, hok]⟩
        · exact ⟨pathStem fn ++ "-" ++ slug ++
              (if pathSfx fn = "" then ".bin" else pathSfx fn),
            by simp [stepOtherDoc, hok]⟩

theorem stepSingleMsg_eq_album (ok : Nat → Bool) (slug : String) (st : MediaState) (m : Msg)
    (hpd : isPhotoOrDoc m) : stepSingleMsg ok slug st m = stepAlbumMsg ok slug st m := by
  rcases hpd with hm | ⟨mime, orig, hv, hm⟩ <;> simp [stepSingleMsg, stepAlbumMsg, hm]

theorem foldl_album_files_mono (ok : Nat → Bool) (slug : String) (ms : List Msg) :
    ∀ (st : MediaState) (x : Nat × String), x ∈ st.files →
      x ∈ (ms.foldl (stepAlbumMsg ok slug) st).files := by
  induction ms with
  | nil => intro st x hx; exact hx
  | cons a as ih =>
    intro st x hx
    rw [List.foldl_cons]
    exact ih _ x (stepAlbumMsg_files_mono ok slug st a x hx)

theorem foldl_album_files_self (ok : Nat → Bool) (slug : String) (ms : List Msg) :
    ∀ (st : MediaState) (m : Msg), m ∈ ms → ok m.id = true → isPhotoOrDoc m →
      ∃ f, (m.id, f) ∈ (ms.foldl (stepAlbumMsg ok slug) st).files := by
  induction ms with
  | nil => intro st m hmem _ _; simp at hmem
  | cons a as ih =>
    intro st m hmem hok hpd
    rw [List.foldl_cons]
    rcases List.mem_cons.mp hmem with h | h
    · subst h
      obtain ⟨f, hf⟩ := stepAlbumMsg_files_self ok slug st m hok hpd
      exact ⟨f, foldl_album_files_mono ok slug as _ _ hf⟩
    · exact ih _ m h hok hpd

theorem foldl_single_files_mono (ok : Nat → Bool) (slug : String) (ms : List Msg) :
    ∀ (st : MediaState) (x : Nat × String), x ∈ st.files →
      x ∈ (ms.foldl (stepSingleMsg ok slug) st).files := by
  induction ms with
  | nil => intro st x hx; exact hx
  | cons a as ih =>
    intro st x hx
    rw [List.foldl_cons]
    exact ih _ x (stepSingleMsg_files_mono ok slug st a x hx)

theorem foldl_single_files_self (ok : Nat → Bool) (slug : String) (ms : List Msg) :
    ∀ (st : MediaState) (m : Msg), m ∈ ms → ok m.id = true → isPhotoOrDoc m →
      ∃ f, (m.id, f) ∈ (ms.foldl (stepSingleMsg ok slug) st).files := by
  induction ms with
  | nil => intro st m hmem _ _; simp at hmem
  | cons a as ih =>
    intro st m hmem hok hpd
    rw [List.foldl_cons]
    rcases List.mem_cons.mp hmem with h | h
    · subst h
      obtain ⟨f, hf⟩ := stepAlbumMsg_files_self ok slug st m hok hpd
      rw [← stepSingleMsg_eq_album ok slug st m hpd] at hf
      exact ⟨f, foldl_single_files_mono ok slug as _ _ hf⟩
    · exact ih _ m h hok hpd

theorem foldl_albums_files_mono (ok : Nat → Bool) (slug : String)
    (albs : List (Nat × List Msg)) :
    ∀ (st : MediaState) (x : Nat × String), x ∈ st.files →
      x ∈ (albs.foldl (fun st alb => (sortById alb.2).foldl (stepAlbumMsg ok slug) st) st).files := by
  induction albs with
  | nil => intro st x hx; exact hx
  | cons a rest ih =>
    intro st x hx
    rw [List.foldl_cons]
    exact ih _ x (foldl_album_files_mono ok slug (sortById a.2) st x hx)

theorem foldl_albums_files_self (ok : Nat → Bool) (slug : String)
    (albs : List (Nat × List Msg)) :
    ∀ (st : MediaState) (g : Nat) (ms : List Msg) (m : Msg),
      (g, ms) ∈ albs → m ∈ ms → ok m.id = true → isPhotoOrDoc m →
      ∃ f, (m.id, f) ∈
        (albs.foldl (fun st alb => (sortById alb.2).foldl (stepAlbumMsg ok slug) st) st).files := by
  induction albs with
  | nil => intro st g ms m hin _ _ _; simp at hin
  | cons a rest ih =>
    intro st g ms m hin hmem hok hpd
    rw [List.foldl_cons]
    rcases List.mem_cons.mp hin with h | h
    · subst h
      have hmem' : m ∈ sortById ms := ((List.perm_insertionSort msgLe ms).mem_iff).mpr hmem
      obtain ⟨f, hf⟩ := foldl_album_files_self ok slug (sortById ms) st m hmem' hok hpd
      exact ⟨f, foldl_albums_files_mono ok slug rest _ _ hf⟩
    · exact ih _ g ms m h hmem hok hpd

theorem addAlbum_mem_self (albs : List (Nat × List Msg)) (g : Nat) (m : Msg) :
    ∃ p, p ∈ addAlbum albs g m ∧ m ∈ p.2 := by
  induction albs with
  | nil => exact ⟨(g, [m]), by simp [addAlbum], by simp⟩
  | cons q rest ih =>
    rcases q with ⟨k, ms⟩
    by_cases hkg : k = g
    · refine ⟨(k, ms ++ [m]), ?_, by simp⟩
      simp [addAlbum, hkg]
    · obtain ⟨p, hp, hmp⟩ := ih
      refine ⟨p, ?_, hmp⟩
      simp [addAlbum, hkg, hp]

theorem addAlbum_mem_preserve (albs : List (Nat × List Msg)) (g : Nat) (x m : Msg)
    (h : ∃ p, p ∈ albs ∧ m ∈ p.2) : ∃ p, p ∈ addAlbum albs g x ∧ m ∈ p.2 := by
  induction albs with
  | nil =>
    obtain ⟨p, hp, _⟩ := h
    simp at hp
  | cons q rest ih =>
    obtain ⟨p, hp, hmp⟩ := h
    rcases q with ⟨k, ms⟩
    by_cases hkg : k = g
    · rcases List.mem_cons.mp hp with hh | hh
      · subst hh
        refine ⟨(k, ms ++ [x]), by simp [addAlbum, hkg], ?_⟩
        exact List.mem_append_left [x] hmp
      · refine ⟨p, ?_, hmp⟩
        rw [addAlbum, if_pos hkg]
        exact List.mem_cons_of_mem _ hh
    · rcases List.mem_cons.mp hp with hh | hh
      · subst hh
        refine ⟨(k, ms), ?_, hmp⟩
        rw [addAlbum, if_neg hkg]
        exact List.mem_cons_self _ _
      · obtain ⟨q, hq, hmq⟩ := ih ⟨p, hh, hmp⟩
        refine ⟨q, ?_, hmq⟩
        rw [addAlbum, if_neg hkg]
        exact List.mem_cons_of_mem _ hq

theorem partitionStep_self (acc : List (Nat × List Msg) × List Msg) (m : Msg)
    (hmedia : m.media.isSome = true) :
    (∃ p, p ∈ (partitionStep acc m).1 ∧ m ∈ p.2) ∨ m ∈ (partitionStep acc m).2 := by
  have hnone : m.media.isNone = false := by
    rcases hm : m.media with _ | v
    · rw [hm] at hmedia; simp at hmedia
    · simp
  unfold partitionStep
  rw [if_neg (by simp [hnone])]
  split
  next g heq =>
    split
    next hg0 => right; simp
    next hg0 => left; exact addAlbum_mem_self acc.1 g m
  next heq => right; simp

theorem partitionStep_preserve (acc : List (Nat × List Msg) × List Msg) (x m : Msg)
    (h : (∃ p, p ∈ acc.1 ∧ m ∈ p.2) ∨ m ∈ acc.2) :
    (∃ p, p ∈ (partitionStep acc x).1 ∧ m ∈ p.2) ∨ m ∈ (partitionStep acc x).2 := by
  unfold partitionStep
  split
  · exact h
  · split
    next g heq =>
      split
      next hg0 =>
        rcases h with h | h
        · exact Or.inl h
        · right; simp [h]
      next hg0 =>
        rcases h with h | h
        · exact Or.inl (addAlbum_mem_preserve acc.1 g x m h)
        · exact Or.inr h
    next heq =>
      rcases h with h | h
      · exact Or.inl h
      · right; simp [h]

theorem partition_covers_aux (l : List Msg) :
    ∀ (acc : List (Nat × List Msg) × List Msg) (m : Msg),
      ((m ∈ l ∧ m.media.isSome = true) ∨ (∃ p, p ∈ acc.1 ∧ m ∈ p.2) ∨ m ∈ acc.2) →
      (∃ p, p ∈ (l.foldl partitionStep acc).1 ∧ m ∈ p.2) ∨
        m ∈ (l.foldl partitionStep acc).2 := by
  induction l with
  | nil =>
    intro acc m h
    rcases h with ⟨hin, _⟩ | h
    · simp at hin
    · exact h
  | cons a as ih =>
    intro acc m h
    rw [List.foldl_cons]
    apply ih
    rcases h with ⟨hin, hmed⟩ | h
    · rcases List.mem_cons.mp hin with hma | hma
      · subst hma
        exact Or.inr (partitionStep_self acc m hmed)
      · exact Or.inl ⟨hma, hmed⟩
    · exact Or.inr (partitionStep_preserve acc a m h)

theorem partitionMedia_covers (l : List Msg) (m : Msg) (hm : m ∈ l)
    (hmedia : m.media.isSome = true) :
    (∃ p, p ∈ (partitionMedia l).1 ∧ m ∈ p.2) ∨ m ∈ (partitionMedia l).2 := by
  unfold partitionMedia
  exact partition_covers_aux l ([], []) m (Or.inl ⟨hm, hmedia⟩)

theorem strData_append (a b : String) : (a ++ b).data = a.data ++ b.data := rfl

theorem exists_data_prefix (pre s t : String) (h : ∃ r0, s.data = pre.data ++ r0) :
    ∃ r, (s ++ t).data = pre.data ++ r := by
  obtain ⟨r0, hr⟩ := h
  exact ⟨r0 ++ t.data, by rw [strData_append, hr, List.append_assoc]⟩

theorem frontmatter_shape (hugoDate title party : String) :
    ∃ r, (frontmatterOf hugoDate title party).data = ("+++\ndate = \x27" : String).data ++ r := by
  unfold frontmatterOf
  apply exists_data_prefix
  apply exists_data_prefix
  apply exists_data_prefix
  apply exists_data_prefix
  apply exists_data_prefix
  exact ⟨hugoDate.data, strData_append _ _⟩

/-- C9: a failing media download never aborts the rest of its group:
under every failure pattern `ok`, each photo or document message whose
own download succeeds still gets its file written, and `create_hugo_post`
still produces the index document (starting with the `+++` frontmatter)
for the group. -/
theorem c9_failure_isolation (ok : Nat → Bool) (group : List Msg) (folderName : String) :
    (∀ m ∈ group, isPhotoOrDoc m → ok m.id = true →
      ∃ f, (m.id, f) ∈ (download_album_media ok group folderName).files) ∧
    (∀ channelTitle today stamp : String, ¬ group = [] →
      ∃ fn doc mst, create_hugo_post ok group channelTitle today stamp = some (fn, doc, mst) ∧
        ∃ r, doc.data = ("+++\ndate = \x27" : String).data ++ r) := by
  constructor
  · intro m hmem hpd hok
    simp only [download_album_media]
    have hmem' : m ∈ sortById group := ((List.perm_insertionSort msgLe group).mem_iff).mpr hmem
    have hmedia : m.media.isSome = true := by
      rcases hpd with hm | ⟨mime, orig, hv, hm⟩ <;> simp [hm]
    rcases partitionMedia_covers (sortById group) m hmem' hmedia with ⟨⟨g, ms⟩, hin, hmp⟩ | hsing
    · obtain ⟨f, hf⟩ := foldl_albums_files_self ok (cleanFolderName folderName)
        (partitionMedia (sortById group)).1 ⟨none, 0, []⟩ g ms m hin hmp hok hpd
      exact ⟨f, foldl_single_files_mono ok (cleanFolderName folderName)
        (partitionMedia (sortById group)).2 _ _ hf⟩
    · exact foldl_single_files_self ok (cleanFolderName folderName)
        (partitionMedia (sortById group)).2 _ m hsing hok hpd
  · intro channelTitle today stamp hne
    simp only [create_hugo_post]
    rw [if_neg hne]
    refine ⟨_, _, _, rfl, ?_⟩
    apply exists_data_prefix
    apply exists_data_prefix
    exact frontmatter_shape _ _ _

/-- Witness for C9 at a concrete input: the first photo's download fails
and the second photo is still written, and the index document is still
produced. -/
theorem c9_failure_isolation_witness :
    (∃ f, ((2 : Nat), f) ∈ (download_album_media (fun i => decide (i ≠ 1))
      [⟨1, "", some TMedia.photo, none⟩, ⟨2, "", some TMedia.photo, none⟩] "My Post").files) ∧
    (∃ fn doc mst, create_hugo_post (fun i => decide (i ≠ 1))
        [⟨1, "", some TMedia.photo, none⟩, ⟨2, "", some TMedia.photo, none⟩]
        "chan" "2024-01-01" "stamp" = some (fn, doc, mst) ∧
      ∃ r, doc.data = ("+++\ndate = \x27" : String).data ++ r) :=
  ⟨(c9_failure_isolation (fun i => decide (i ≠ 1))
      [⟨1, "", some TMedia.photo, none⟩, ⟨2, "", some TMedia.photo, none⟩] "My Post").1
      ⟨2, "", some TMedia.photo, none⟩ (by decide) (Or.inl rfl) (by decide),
   (c9_failure_isolation (fun i => decide (i ≠ 1))
      [⟨1, "", some TMedia.photo, none⟩, ⟨2, "", some TMedia.photo, none⟩] "My Post").2
      "chan" "2024-01-01" "stamp" (by decide)⟩
